import Mathlib

/-!
Verification of the heading-aware chunking core of the Doc-connect repository.

The Python sources `heading_extractor.py` and `semantic_chunker.py` are shallowly
embedded below.  Strings are Lean `String`s (lists of characters); Python floats
used for font sizes and y-coordinates take only plain numeric values in this
pipeline, so they are embedded as `Int`; Python character counts are `Nat`.
Python dicts keyed by page number are embedded as association lists in insertion
order, and `collections.Counter` as an association list in first-occurrence
order, matching Python 3.7+ dict ordering semantics.

The file is organised as: all definitions first, then all lemmas and the claim
theorems C1-C10.
-/

namespace DocConnect

/-! ## Definitions -/

/-! ### Python string primitives -/

/-- The characters Python's `str.strip()` and the regex class `\s` treat as
whitespace (ASCII fragment, which is all this pipeline produces). -/
def pyIsSpace (c : Char) : Bool :=
  c = ' ' || c = '\t' || c = '\n' || c = '\r' || c = '\x0b' || c = '\x0c'

/-- Drop leading whitespace from a character list (`str.lstrip`). -/
def lstripL (l : List Char) : List Char := l.dropWhile pyIsSpace

/-- Drop trailing whitespace from a character list (`str.rstrip`). -/
def rstripL (l : List Char) : List Char := (l.reverse.dropWhile pyIsSpace).reverse

/-- Python `str.strip()`. -/
def pyStrip (s : String) : String := String.mk (rstripL (lstripL s.toList))

/-- Python `str.lower()` (ASCII case folding, which is what the pipeline's
inputs exercise). -/
def pyLower (s : String) : String := String.mk (s.toList.map Char.toLower)

/-- Python `a in b` on strings: substring test (the empty string is a substring
of everything, as in Python). -/
def strIn (a b : String) : Bool := decide (a.toList <:+: b.toList)

/-- Python slice `s[:n]`. -/
def pyTake (s : String) (n : Nat) : String := String.mk (s.toList.take n)

/-- Python slice `s[-n:]` (for n > 0: the last `min n (length s)` characters). -/
def pyTakeRight (s : String) (n : Nat) : String :=
  String.mk (s.toList.drop (s.toList.length - n))

/-- Worker for Python `str.split()` with no argument: split on whitespace runs,
dropping empty fields. -/
def wordsAux : List Char → List Char → List String
  | [], acc => if acc.isEmpty then [] else [String.mk acc.reverse]
  | c :: rest, acc =>
    if pyIsSpace c then
      if acc.isEmpty then wordsAux rest []
      else String.mk acc.reverse :: wordsAux rest []
    else wordsAux rest (c :: acc)

/-- Python `str.split()` (whitespace split, empty fields dropped). -/
def pyWords (s : String) : List String := wordsAux s.toList []

/-- Python `s.replace('.', '')`. -/
def dropDots (s : String) : String := String.mk (s.toList.filter (fun c => c ≠ '.'))

/-- Python `str.isdigit()`: true iff the string is non-empty and all characters
are digits (`''.isdigit()` is `False`). -/
def pyIsDigitStr (s : String) : Bool := !s.toList.isEmpty && s.toList.all Char.isDigit

/-- Python `'sep'.join(l)`. -/
def joinSep (sep : String) : List String → String
  | [] => ""
  | [s] => s
  | s :: rest => s ++ sep ++ joinSep sep rest

/-! ### Data model -/

/-- One styled text line as produced by `extract_lines_with_fonts`
(heading_extractor.py lines 22-50): text, 0-based page, font size, font name,
bold flag, y-coordinate. -/
structure StyledLine where
  text : String
  page : Nat
  font_size : Int
  font_name : String
  is_bold : Bool
  y_coord : Int
deriving DecidableEq

/-- The per-line data a PDF page supplies (text already joined over spans and
stripped, largest span font size, dominant font name, bold flag, minimum span
y-coordinate).  A document is a list of pages, each a list of such lines. -/
structure RawLine where
  text : String
  font_size : Int
  font_name : String
  is_bold : Bool
  y_coord : Int
deriving DecidableEq

/-- A heading entry (`entry` dicts built in `assign_heading_levels`):
level string ('Title', 'H1', 'H2', 'H3'), cleaned text, 0-based page,
y-coordinate. -/
structure HeadingEntry where
  level : String
  text : String
  page : Nat
  y_coord : Int
deriving DecidableEq

/-- A paragraph from `extract_paragraphs_with_positioning`
(semantic_chunker.py lines 39-96): stripped text, 1-based page, y span. -/
structure Paragraph where
  text : String
  page : Nat
  y_start : Int
  y_end : Int
deriving DecidableEq

/-- A chunk from `create_simple_chunks` (semantic_chunker.py lines 104-174).
`page` and `y_start` are `Option`s because the Python variables they copy
(`current_page`, `current_y_start`) are initialised to `None`. -/
structure Chunk where
  text : String
  page : Option Nat
  y_start : Option Int
deriving DecidableEq

/-- An output section record ({'text', 'page', 'file', 'heading'} dicts built
by both `extract_chunks_with_headings` variants). -/
structure SectionRecord where
  text : String
  page : Option Nat
  file : String
  heading : String
deriving DecidableEq

/-! ### heading_extractor.py: clean_heading_text -/

/-- Embeds `clean_heading_text` (heading_extractor.py lines 10-19): strip whitespace,
and if a colon is present (`':' in text`) keep only the stripped part before the
first colon (`text.split(':')[0]` is exactly the prefix before the first colon). -/
def clean_heading_text (text : String) : String :=
  let t := pyStrip text
  if ':' ∈ t.toList then pyStrip (String.mk (t.toList.takeWhile (fun c => c ≠ ':')))
  else t

/-! ### semantic_chunker.py: sentence tokenization

`simple_sent_tokenize` (semantic_chunker.py lines 7-11) splits on
`re.split(r'[.!?]+(?=\s|\n|$)', text)`: a separator is a maximal run of
sentence-ending punctuation whose following character is whitespace (or the end
of the string); the run is removed, the pieces are stripped, and empty pieces
are dropped.  The embedding below cuts at every punctuation character of such a
run; the extra cuts only create empty raw pieces between the run's characters,
which the final filter removes exactly as it removes the empty pieces produced
by `re.split`'s run handling, so the returned token list is the same. -/

def isSentEnd (c : Char) : Bool := c = '.' || c = '!' || c = '?'

/-- True when the first non-punctuation character of `l` is whitespace, or `l`
is all punctuation: the regex lookahead `(?=\s|\n|$)` succeeds after the
punctuation run starting at the current position. -/
def sepAfterOk (l : List Char) : Bool :=
  match l.dropWhile isSentEnd with
  | [] => true
  | d :: _ => pyIsSpace d

def sentSplitAux : List Char → List Char → List String
  | [], acc => [String.mk acc.reverse]
  | c :: rest, acc =>
    if isSentEnd c && sepAfterOk rest then
      String.mk acc.reverse :: sentSplitAux rest []
    else
      sentSplitAux rest (c :: acc)

/-- Embeds `[s.strip() for s in sentences if s.strip()]`. -/
def stripPieces (ps : List String) : List String :=
  (ps.map pyStrip).filter (fun t => t ≠ "")

/-- Embeds `simple_sent_tokenize` (semantic_chunker.py lines 7-11). -/
def simple_sent_tokenize (text : String) : List String :=
  stripPieces (sentSplitAux text.toList [])

/-- Embeds `segment_sentences` (semantic_chunker.py lines 99-101). -/
def segment_sentences (text : String) : List String := simple_sent_tokenize text

/-! ### semantic_chunker.py: paragraph-break detection -/

def isAsciiUpper (c : Char) : Bool := 'A' ≤ c && c ≤ 'Z'

def hasDblNewline (s : String) : Bool := decide (['\n', '\n'] <:+: s.toList)

/-- Embeds `re.search(r'[.!?]\s+[A-Z]', w)`: somewhere in `w`, a sentence-ending
punctuation character followed by at least one whitespace character whose
whitespace run is followed by an ASCII uppercase letter. -/
def searchSentCap : List Char → Bool
  | [] => false
  | c :: rest =>
    (isSentEnd c &&
      (match rest with
       | [] => false
       | d :: _ =>
         pyIsSpace d &&
           (match rest.dropWhile pyIsSpace with
            | [] => false
            | e :: _ => isAsciiUpper e))) || searchSentCap rest

/-- Embeds `is_paragraph_break` (semantic_chunker.py lines 23-36). -/
def is_paragraph_break (text_before text_after : String) : Bool :=
  if text_before = "" || text_after = "" then false
  else if hasDblNewline (pyTakeRight text_before 20) || hasDblNewline (pyTake text_after 20) then
    true
  else searchSentCap (pyTakeRight text_before 10 ++ pyTake text_after 10).toList

/-- The paragraph-break rule exactly as claim C7 words it: it omits the code's
check of `'\n\n'` in the first 20 characters of the next line. -/
def isParaBreakClaimC7 (text_before text_after : String) : Bool :=
  hasDblNewline (pyTakeRight text_before 20) ||
    searchSentCap (pyTakeRight text_before 10 ++ pyTake text_after 10).toList

/-! ### semantic_chunker.py: paragraph extraction -/

/-- Embeds `current_y_end or current_y_start` (semantic_chunker.py lines 70 and 87):
Python's `or` falls back when the left value is falsy, and a y-coordinate of
`0` (like `None`) is falsy. -/
def pyOrY (y_end y_start : Int) : Int := if y_end = 0 then y_start else y_end

/-- The open-paragraph buffer of `extract_paragraphs_with_positioning`:
`current_paragraph`, `current_y_start`, `current_y_end` (none when the buffer
is empty). -/
def sealPara (buf : String × Int × Int) : String × Int × Int :=
  (pyStrip buf.1, buf.2.1, pyOrY buf.2.2 buf.2.1)

/-- One line step of `extract_paragraphs_with_positioning` (lines 56-80):
start a new paragraph when the buffer is empty or a paragraph break fires,
otherwise extend the buffer. -/
def paraLineStep (st : List (String × Int × Int) × Option (String × Int × Int))
    (line : RawLine) : List (String × Int × Int) × Option (String × Int × Int) :=
  match st.2 with
  | none => (st.1, some (line.text, line.y_coord, line.y_coord))
  | some buf =>
    if is_paragraph_break buf.1 line.text then
      (st.1 ++ [sealPara buf], some (line.text, line.y_coord, line.y_coord))
    else
      (st.1, some (buf.1 ++ " " ++ line.text, buf.2.1, line.y_coord))

/-- Embeds `extract_paragraphs_with_positioning` for one page: fold the page's
non-empty lines, then seal the trailing paragraph, attaching the 1-based page
number (`page_num + 1`, semantic_chunker.py line 92). -/
def pageParagraphs (page_num : Nat) (lines : List RawLine) : List Paragraph :=
  let st := (lines.filter (fun l => l.text ≠ "")).foldl paraLineStep ([], none)
  let sealed := match st.2 with
    | none => st.1
    | some buf => st.1 ++ [sealPara buf]
  sealed.map (fun p => ⟨p.1, page_num + 1, p.2.1, p.2.2⟩)

/-- Embeds `extract_paragraphs_with_positioning` (semantic_chunker.py lines 39-96),
taking the document as a list of pages of raw lines. -/
def extract_paragraphs_with_positioning (doc : List (List RawLine)) : List Paragraph :=
  (doc.enum.map (fun pr => pageParagraphs pr.1 pr.2)).flatten

/-! ### semantic_chunker.py: create_simple_chunks -/

/-- The loop state of `create_simple_chunks`: sealed chunks, `current_chunk`,
`current_page`, `current_y_start`, and `current_paragraphs`.  Of the paragraph
dicts tracked in `current_paragraphs` only the `'y_start'` field is ever read
(and the reseed on line 133 stores a dict holding only that field), so the
state keeps just the list of their y_start values. -/
structure ChunkState where
  chunks : List Chunk
  current_chunk : String
  current_page : Option Nat
  current_y_start : Option Int
  current_paragraphs : List Int
deriving DecidableEq

/-- Embeds `current_paragraphs[0]['y_start'] if current_paragraphs else current_y_start`
(semantic_chunker.py lines 125, 136, 146, 167). -/
def chunkYStart (st : ChunkState) : Option Int :=
  match st.current_paragraphs with
  | y :: _ => some y
  | [] => st.current_y_start

/-- One iteration of the `for para in paragraphs` loop of
`create_simple_chunks` (semantic_chunker.py lines 112-163). -/
def chunkStep (min_chunk_size max_chunk_size : Nat) (st : ChunkState)
    (para : Paragraph) : ChunkState :=
  let para_text := para.text
  let para_size := para_text.length
  if st.current_chunk ≠ "" ∧ st.current_chunk.length + para_size > max_chunk_size then
    let sentences := segment_sentences st.current_chunk
    if 1 < sentences.length then
      let chunk_text := joinSep ". " sentences.dropLast ++ "."
      if min_chunk_size ≤ chunk_text.length then
        { chunks := st.chunks ++ [⟨chunk_text, st.current_page, chunkYStart st⟩],
          current_chunk := sentences.getLastD "",
          current_page := st.current_page,
          current_y_start := st.current_y_start,
          current_paragraphs := [para.y_start] }
      else
        { chunks := st.chunks ++ [⟨st.current_chunk, st.current_page, chunkYStart st⟩],
          current_chunk := para_text,
          current_page := st.current_page,
          current_y_start := st.current_y_start,
          current_paragraphs := [para.y_start] }
    else
      { chunks := st.chunks ++ [⟨st.current_chunk, st.current_page, chunkYStart st⟩],
        current_chunk := para_text,
        current_page := st.current_page,
        current_y_start := st.current_y_start,
        current_paragraphs := [para.y_start] }
  else
    if st.current_chunk ≠ "" then
      { st with
        current_chunk := st.current_chunk ++ " " ++ para_text,
        current_paragraphs := st.current_paragraphs ++ [para.y_start] }
    else
      { chunks := st.chunks,
        current_chunk := para_text,
        current_page := some para.page,
        current_y_start := some para.y_start,
        current_paragraphs := [para.y_start] }

/-- Embeds `create_simple_chunks` (semantic_chunker.py lines 104-174). -/
def create_simple_chunks (paragraphs : List Paragraph)
    (min_chunk_size max_chunk_size : Nat) : List Chunk :=
  let st := paragraphs.foldl (chunkStep min_chunk_size max_chunk_size)
    ⟨[], "", none, none, []⟩
  if st.current_chunk ≠ "" then
    st.chunks ++ [⟨st.current_chunk, st.current_page, chunkYStart st⟩]
  else st.chunks

/-! ### heading_extractor.py: line extraction and classification -/

def HEADING_LEVELS : List String := ["Title", "H1", "H2", "H3"]

def skip_patterns : List String := ["s.no", "name", "age", "date", "rs.", "signature"]

/-- The candidate filter applied in both classification modes
(heading_extractor.py lines 67-73 and 105-112, two identical copies in the
source): reject cleaned text of length ≤ 3, text that is all digits once '.'
characters are removed (`text.replace('.', '').isdigit()`), and reserved
form-field labels. -/
def headingCandidateReject (text : String) : Bool :=
  decide (text.length ≤ 3) || pyIsDigitStr (dropDots text) ||
    decide (pyLower text ∈ skip_patterns)

/-- One update of a `collections.Counter`: increment an existing key in place
or append a new key (Python 3.7+ dicts keep insertion order). -/
def counterAdd (acc : List (Int × Nat)) (s : Int) : List (Int × Nat) :=
  if acc.any (fun p => p.1 = s) then
    acc.map (fun p => if p.1 = s then (p.1, p.2 + 1) else p)
  else acc ++ [(s, 1)]

/-- Embeds `Counter(sizes)` as an association list in first-occurrence order. -/
def pyCounter (xs : List Int) : List (Int × Nat) := xs.foldl counterAdd []

/-- Embeds `most_common(1)[0]`: the first entry with maximal count (ties resolve to
insertion order). -/
def pyMostCommon1 (l : List (Int × Nat)) : Option (Int × Nat) :=
  l.foldl (fun acc p =>
    match acc with
    | none => some p
    | some q => if q.2 < p.2 then some p else some q) none

/-- Embeds `sorted(rare_font_sizes, reverse=True)`. -/
def sortDesc (l : List Int) : List Int := l.insertionSort (fun a b => b ≤ a)

/-- One bold line's contribution in bold-dominant mode (heading_extractor.py
lines 65-80): clean, filter, emit an H1 entry. -/
def boldLineEntry (line : StyledLine) : Option HeadingEntry :=
  let text := clean_heading_text line.text
  if headingCandidateReject text then none
  else some ⟨"H1", text, line.page, line.y_coord⟩

/-- Embeds `size_to_level` (heading_extractor.py lines 92-94): the top 4 rare sizes in
descending order take levels Title, H1, H2, H3; fewer rare sizes populate fewer
levels. -/
def sizeToLevel (rare_sorted : List Int) : List (Int × String) :=
  (rare_sorted.take HEADING_LEVELS.length).zip HEADING_LEVELS

/-- One line's classification in font-size mode (heading_extractor.py lines
98-112): body-size lines are skipped, unmapped sizes are skipped, then the
candidate filter applies; yields (level, cleaned text). -/
def fontLineLevel (body_font_size : Int) (s2l : List (Int × String))
    (line : StyledLine) : Option (String × String) :=
  if line.font_size = body_font_size then none
  else match s2l.lookup line.font_size with
    | none => none
    | some level =>
      let text := clean_heading_text line.text
      if headingCandidateReject text then none
      else some (level, text)

/-- The font-size-mode outcome given the sorted rare sizes (the loop of
heading_extractor.py lines 96-124 appends each surviving line's text to
`title_lines` or its entry to `outline`; the two appends target disjoint
accumulators, so the loop equals this pair of filterMaps).  The title is the
space-join of the Title-level texts, or None when there are none. -/
def fontModeResult (lines : List StyledLine) (body_font_size : Int)
    (rare_sorted : List Int) : Option String × List HeadingEntry :=
  let s2l := sizeToLevel rare_sorted
  let title_lines := lines.filterMap (fun line =>
    match fontLineLevel body_font_size s2l line with
    | some ("Title", text) => some text
    | _ => none)
  let outline := lines.filterMap (fun line =>
    match fontLineLevel body_font_size s2l line with
    | none => none
    | some (level, text) =>
      if level = "Title" then none
      else some ⟨level, text, line.page, line.y_coord⟩)
  (if title_lines ≠ [] then some (joinSep " " title_lines) else none, outline)

/-- Embeds `assign_heading_levels` (heading_extractor.py lines 53-126).  The float
test `count / total_lines < 0.2` coincides with `5 * count < total_lines` for
every feasible count (the two sides could differ only at ratios within a
relative 2^-53 of 1/5, impossible for line counts below 2^50). -/
def assign_heading_levels (lines : List StyledLine) : Option String × List HeadingEntry :=
  let font_size_counts := pyCounter (lines.map (fun l => l.font_size))
  let total_lines := lines.length
  let bold_lines := lines.filter (fun l => l.is_bold)
  if bold_lines ≠ [] then
    (none, bold_lines.filterMap boldLineEntry)
  else
    match pyMostCommon1 font_size_counts with
    | some bodyPair =>
      let rare_font_sizes :=
        (font_size_counts.filter (fun p => 5 * p.2 < total_lines)).map (fun p => p.1)
      fontModeResult lines bodyPair.1 (sortDesc rare_font_sizes)
    | none => (none, [])

/-- Embeds `extract_lines_with_fonts` (heading_extractor.py lines 22-50): flatten the
document's pages into styled lines carrying 0-based page numbers
(`enumerate(doc, start=1)` followed by `page_num - 1`), dropping lines whose
text is empty.  Per-line font attributes (largest span size, dominant font
name, bold flag, minimum span y) are the given raw-line fields. -/
def extract_lines_with_fonts (doc : List (List RawLine)) : List StyledLine :=
  (doc.enum.map (fun pr =>
    (pr.2.filter (fun l => l.text ≠ "")).map (fun l =>
      (⟨l.text, pr.1, l.font_size, l.font_name, l.is_bold, l.y_coord⟩ : StyledLine)))).flatten

/-- First occurrences of a list, in order. -/
def dedupFirst (l : List Nat) : List Nat :=
  l.foldl (fun acc p => if p ∈ acc then acc else acc ++ [p]) []

/-- The grouping loop of `get_headings_by_page` (heading_extractor.py lines
134-141): a `defaultdict(list)` filled by appending outline entries in order,
so keys appear in first-occurrence order and each page's list keeps outline
order.  The per-page dicts keep text/level/y_coord; the embedding reuses
`HeadingEntry`, whose extra `page` field equals the key. -/
def groupByPage (outline : List HeadingEntry) : List (Nat × List HeadingEntry) :=
  (dedupFirst (outline.map (fun e => e.page))).map
    (fun p => (p, outline.filter (fun e => e.page = p)))

/-- Embeds `get_headings_by_page` (heading_extractor.py lines 129-143). -/
def get_headings_by_page (doc : List (List RawLine)) :
    Option String × List (Nat × List HeadingEntry) :=
  let r := assign_heading_levels (extract_lines_with_fonts doc)
  (r.1, groupByPage r.2)

/-! ### Heading associators -/

/-- Python `max(l, key=lambda x: x['y_coord'])` on a non-empty list: the first
entry with maximal y (ties keep the earlier entry). -/
def pyMaxByY : List HeadingEntry → Option HeadingEntry
  | [] => none
  | h :: t => some (t.foldl (fun m x => if m.y_coord < x.y_coord then x else m) h)

/-- Python `min(l, key=lambda x: x['y_coord'])` on a non-empty list: the first
entry with minimal y. -/
def pyMinByY : List HeadingEntry → Option HeadingEntry
  | [] => none
  | h :: t => some (t.foldl (fun m x => if x.y_coord < m.y_coord then x else m) h)

/-- The content-overlap test of semantic_chunker.py `find_heading_for_chunk`
(lines 196-200): the lowercased heading text is a substring of the lowercased
chunk text, or any of its whitespace-split words is. -/
def headingMatchesChunk (chunk_text : String) (heading_text_raw : String) : Bool :=
  let heading_text := pyLower heading_text_raw
  strIn heading_text chunk_text ||
    (pyWords heading_text).any (fun w => strIn w chunk_text)

/-- Embeds `find_heading_for_chunk` (semantic_chunker.py lines 177-218) for a chunk
with page `page`, y-start `chunk_y` and text `chunk_text_raw`.  The
`headings_by_page` dict is an association list; `page not in headings_by_page`
is `lookup = none`. -/
def find_heading_for_chunk (page : Nat) (chunk_y : Int) (chunk_text_raw : String)
    (headings_by_page : List (Nat × List HeadingEntry)) : String :=
  let chunk_text := pyLower chunk_text_raw
  match headings_by_page.lookup page with
  | none => ""
  | some page_headings =>
    match page_headings with
    | [] => ""
    | [h] => h.text
    | _ =>
      match page_headings.find? (fun h => headingMatchesChunk chunk_text h.text) with
      | some h => h.text
      | none =>
        let headings_above := page_headings.filter (fun h => h.y_coord ≤ chunk_y)
        if headings_above ≠ [] then
          match pyMaxByY headings_above with
          | some h => h.text
          | none => ""
        else
          let headings_below := page_headings.filter (fun h => chunk_y < h.y_coord)
          if headings_below ≠ [] then
            match pyMinByY headings_below with
            | some h => h.text
            | none => ""
          else
            match page_headings with
            | h :: _ => h.text
            | [] => ""

/-- The associator as claim C2 words it: absent page → ""; single entry → its
text unconditionally; else the first content-overlapping entry in page order;
else the entry with the largest y-coordinate at or above the chunk's y-start;
else the entry with the smallest y-coordinate below it; the remaining case
(unreachable for a non-empty entry list) gives "". -/
def associateClaimC2 (page : Nat) (chunk_y : Int) (chunk_text_raw : String)
    (index : List (Nat × List HeadingEntry)) : String :=
  match index.lookup page with
  | none => ""
  | some entries =>
    match entries with
    | [e] => e.text
    | _ =>
      match entries.find? (fun e => headingMatchesChunk (pyLower chunk_text_raw) e.text) with
      | some e => e.text
      | none =>
        match pyMaxByY (entries.filter (fun e => e.y_coord ≤ chunk_y)) with
        | some e => e.text
        | none =>
          match pyMinByY (entries.filter (fun e => chunk_y < e.y_coord)) with
          | some e => e.text
          | none => ""

/-- The word-set-overlap test of heading_extractor.py `find_heading_for_chunk`
(lines 162-166): non-empty intersection of the lowercased word sets. -/
def wordSetOverlap (heading_text chunk_text : String) : Bool :=
  (pyWords (pyLower heading_text)).any (fun w => w ∈ pyWords (pyLower chunk_text))

/-- Embeds `find_heading_for_chunk` (heading_extractor.py lines 146-170): the simpler
sibling used by the page-level strategy — word-set overlap, else the first
heading on the page. -/
def find_heading_for_chunk_he (chunk_page : Nat) (chunk_text : String)
    (headings_by_page : List (Nat × List HeadingEntry)) : String :=
  match headings_by_page.lookup chunk_page with
  | none => ""
  | some page_headings =>
    match page_headings with
    | [] => ""
    | [h] => h.text
    | _ =>
      match page_headings.find? (fun h => wordSetOverlap h.text chunk_text) with
      | some h => h.text
      | none =>
        match page_headings with
        | h :: _ => h.text
        | [] => ""

/-! ### The two pipeline strategies -/

/-- Embeds `page.get_text()` for the single-text-block pages this model considers:
the lines' texts joined with newlines, with a trailing newline. -/
def pageGetText (page : List RawLine) : String :=
  joinSep "\n" (page.map (fun l => l.text)) ++ "\n"

/-- Python `text.split('\n')`. -/
def splitNlAux : List Char → List Char → List String
  | [], acc => [String.mk acc.reverse]
  | c :: rest, acc =>
    if c = '\n' then String.mk acc.reverse :: splitNlAux rest []
    else splitNlAux rest (c :: acc)

def pySplitNl (s : String) : List String := splitNlAux s.toList []

/-- The per-page paragraph-merge loop of heading_extractor.py
`extract_chunks_with_headings` (lines 181-208): split the page text on
newlines, strip, drop empties, then greedily merge up to `chunk_size`,
emitting a section (with 1-based page and associated heading) at each seal. -/
def simplePageSections (fname : String) (chunk_size : Nat)
    (headings_by_page : List (Nat × List HeadingEntry)) (page_num : Nat)
    (page : List RawLine) : List SectionRecord :=
  let text := pageGetText page
  let paras := ((pySplitNl text).map pyStrip).filter (fun p => p ≠ "")
  let st := paras.foldl (fun (acc : List SectionRecord × String) para =>
    if acc.2.length + para.length < chunk_size then
      (acc.1, acc.2 ++ (if acc.2 = "" then "" else " ") ++ para)
    else
      ((if acc.2 ≠ "" then
          acc.1 ++ [⟨acc.2, some (page_num + 1), fname,
            find_heading_for_chunk_he page_num acc.2 headings_by_page⟩]
        else acc.1), para)) ([], "")
  if st.2 ≠ "" then
    st.1 ++ [⟨st.2, some (page_num + 1), fname,
      find_heading_for_chunk_he page_num st.2 headings_by_page⟩]
  else st.1

/-- Embeds `extract_chunks_with_headings` (heading_extractor.py lines 173-210): the
"simple" page-level strategy, default chunk_size 500. -/
def extract_chunks_with_headings_simple (doc : List (List RawLine)) (fname : String)
    (chunk_size : Nat) : List SectionRecord :=
  let idx := (get_headings_by_page doc).2
  (doc.enum.map (fun pr => simplePageSections fname chunk_size idx pr.1 pr.2)).flatten

/-- Heading lookup for a sealed chunk (`find_heading_for_chunk(chunk, ...)`,
semantic_chunker.py line 242).  A `None` page is never a dict key, giving "";
every chunk sealed from at least one paragraph carries concrete page and
y-start values, so the second default is unreachable in the pipeline. -/
def findHeadingForChunkRecord (c : Chunk) (idx : List (Nat × List HeadingEntry)) : String :=
  match c.page, c.y_start with
  | some p, some y => find_heading_for_chunk p y c.text idx
  | _, _ => ""

/-- Embeds `extract_chunks_with_headings` (semantic_chunker.py lines 221-251): the
"sentence-aware" paragraph-level strategy — min size 500, max size
`chunk_size` (default 800). -/
def extract_chunks_with_headings_sem (doc : List (List RawLine)) (fname : String)
    (chunk_size : Nat) : List SectionRecord :=
  let paragraphs := extract_paragraphs_with_positioning doc
  let chunks := create_simple_chunks paragraphs 500 chunk_size
  let idx := (get_headings_by_page doc).2
  chunks.map (fun c => ⟨c.text, c.page, fname, findHeadingForChunkRecord c idx⟩)

/-! ### Claim-side classifier variants for C5 -/

/-- Font-size mode as claim C5 (via spec §4.1) words it: the body size is
excluded BEFORE the rare-size (< 20%) filter — the rare filter runs "among the
remaining sizes". -/
def assignLevelsClaimC5 (lines : List StyledLine) : Option String × List HeadingEntry :=
  let font_size_counts := pyCounter (lines.map (fun l => l.font_size))
  match pyMostCommon1 font_size_counts with
  | some bodyPair =>
    let rare :=
      ((font_size_counts.filter (fun p => p.1 ≠ bodyPair.1)).filter
        (fun p => 5 * p.2 < lines.length)).map (fun p => p.1)
    fontModeResult lines bodyPair.1 (sortDesc rare)
  | none => (none, [])

/-- Font-size mode as amended: the rare-size filter runs over all sizes
including the body size, which may therefore occupy a heading-level slot even
though body-size lines themselves are always skipped. -/
def assignLevelsAmendedC5 (lines : List StyledLine) : Option String × List HeadingEntry :=
  let font_size_counts := pyCounter (lines.map (fun l => l.font_size))
  match pyMostCommon1 font_size_counts with
  | some bodyPair =>
    let rare :=
      (font_size_counts.filter (fun p => 5 * p.2 < lines.length)).map (fun p => p.1)
    fontModeResult lines bodyPair.1 (sortDesc rare)
  | none => (none, [])

/-! ### Concrete inputs used by counterexamples and witnesses -/

/-- C5 counterexample lines: six non-bold lines with six distinct font sizes,
each holding 1/6 < 20% of the lines, the first (and hence most frequent by
insertion order) being the largest. -/
def c5lines : List StyledLine :=
  [⟨"Largest Heading", 0, 10, "F", false, 10⟩,
   ⟨"Second Heading", 0, 9, "F", false, 20⟩,
   ⟨"Third Heading", 0, 8, "F", false, 30⟩,
   ⟨"Fourth Heading", 0, 7, "F", false, 40⟩,
   ⟨"Fifth Heading", 0, 6, "F", false, 50⟩,
   ⟨"Sixth Heading", 0, 5, "F", false, 60⟩]

/-- C2 example index: one page (number 2) with three entries at y-coordinates
10, 50 and 90, none of whose words occur in the example chunk text "qqq". -/
def c2idx : List (Nat × List HeadingEntry) :=
  [(2, [⟨"H1", "Alpha One", 2, 10⟩, ⟨"H1", "Beta Two", 2, 50⟩,
        ⟨"H1", "Gamma Three", 2, 90⟩])]

/-- The single-page document of claim C1. -/
def c1body : String :=
  "This report covers fiscal 2024 performance across all divisions in significant detail spanning many paragraphs..."

def c1doc : List (List RawLine) :=
  [[⟨"Annual Report", 12, "Helvetica-Bold", true, 10⟩,
    ⟨c1body, 12, "Helvetica", false, 40⟩]]

/-- C6 witness line: a bold "Chapter 1: Introduction" heading. -/
def c6wlines : List StyledLine :=
  [⟨"Chapter 1: Introduction", 0, 12, "Helvetica-Bold", true, 5⟩]

/-- C9 witness lines: a single bold line whose cleaned text is the reserved
label "Name", so every heading candidate is filtered out. -/
def c9wlines : List StyledLine :=
  [⟨"Name", 0, 12, "Helvetica-Bold", true, 3⟩]

/-- C9 witness lines for font-size mode: no bold lines, body size 12, the one
rare-size (9) candidate line carries the reserved label "Name", so every
heading candidate is filtered out. -/
def c9wlines2 : List StyledLine :=
  [⟨"Body text one", 0, 12, "F", false, 10⟩,
   ⟨"Body text two", 0, 12, "F", false, 20⟩,
   ⟨"Body text three", 0, 12, "F", false, 30⟩,
   ⟨"Body text four", 0, 12, "F", false, 40⟩,
   ⟨"Body text five", 0, 12, "F", false, 50⟩,
   ⟨"Name", 0, 9, "F", false, 60⟩]

/-! ### Concrete inputs used by the chunker claims -/

/-- C3 counterexample paragraphs (minSize 6, maxSize 8): a ten-character
single-sentence paragraph, a two-character paragraph, a nine-character
paragraph. -/
def c3paras : List Paragraph :=
  [⟨"aaaaaaaaaa", 1, 1, 1⟩, ⟨"bb", 1, 2, 2⟩, ⟨"ccccccccc", 1, 3, 3⟩]

/-- C4 failing input: two paragraphs on pages 1 and 2 that end up in distinct
chunks. -/
def c4paras : List Paragraph :=
  [⟨"aaaaaaaaaa", 1, 10, 10⟩, ⟨"bb", 2, 20, 20⟩]

/-- Witness paragraphs for the amended C3 bound: no paragraph longer than 20. -/
def c3wparas : List Paragraph :=
  [⟨"Hello there. Yes", 1, 1, 1⟩, ⟨"Go on now", 1, 2, 2⟩, ⟨"Final bit", 1, 3, 3⟩]

/-- Witness state for C8: a non-empty accumulator holding two sentences. -/
def c8state : ChunkState := ⟨[], "Hi there. Go now", some 1, some 5, [5]⟩

/-- Witness paragraph for C8. -/
def c8para : Paragraph := ⟨"xxxxx yy", 1, 7, 7⟩

/-- Total character count of a list of strings. -/
def sumLen (l : List String) : Nat := (l.map String.length).sum

/-- Size measure of a raw piece list after stripping and filtering: total token
characters plus 2 per token.  Used to bound the length of rebuilt chunk texts. -/
def tokCost (ps : List String) : Nat :=
  sumLen (stripPieces ps) + 2 * (stripPieces ps).length

/-! ## Lemmas and claim theorems -/

theorem toList_mk (l : List Char) : (String.mk l).toList = l := rfl

theorem strLen_toList (s : String) : s.length = s.toList.length := rfl

/-! ### Stripping lemmas -/

theorem dropWhile_head_not (p : Char → Bool) (l : List Char) :
    ∀ c ∈ (l.dropWhile p).head?, p c = false := by
  induction l with
  | nil => intro c hc; simp [List.dropWhile] at hc
  | cons a as ih =>
    intro c hc
    by_cases h : p a
    · rw [List.dropWhile_cons_of_pos h] at hc; exact ih c hc
    · rw [List.dropWhile_cons_of_neg h] at hc
      simp at hc
      subst hc
      simp [h]

theorem dropWhile_of_head_not (p : Char → Bool) (l : List Char)
    (h : ∀ c ∈ l.head?, p c = false) : l.dropWhile p = l := by
  cases l with
  | nil => rfl
  | cons a as =>
    have : p a = false := h a (by simp)
    rw [List.dropWhile_cons_of_neg (by simp [this])]

theorem lstripL_idem (l : List Char) : lstripL (lstripL l) = lstripL l := by
  unfold lstripL
  exact dropWhile_of_head_not _ _ (dropWhile_head_not _ _)

theorem rstripL_head_eq (l : List Char) (h : ∀ c ∈ l.head?, pyIsSpace c = false) :
    ∀ c ∈ (rstripL l).head?, pyIsSpace c = false := by
  intro c hc
  unfold rstripL at hc
  rcases hrev : l.reverse.dropWhile pyIsSpace with _ | ⟨a, as⟩
  · rw [hrev] at hc; simp at hc
  · rw [hrev] at hc
    have hsub : (a :: as) <:+ l.reverse := by
      rw [← hrev]; exact List.dropWhile_suffix _
    have hpre : (a :: as).reverse <+: l := by
      have := List.reverse_prefix.mpr hsub
      simpa using this
    rcases hpre with ⟨t, ht⟩
    cases hrl : (a :: as).reverse with
    | nil => simp [hrl] at hc
    | cons b bs =>
      rw [hrl] at hc ht
      simp at hc
      subst hc
      apply h
      rw [← ht]
      simp

theorem lstripL_rstripL_lstripL (l : List Char) :
    lstripL (rstripL (lstripL l)) = rstripL (lstripL l) :=
  dropWhile_of_head_not _ _ (rstripL_head_eq _ (dropWhile_head_not _ _))

theorem rstripL_idem_of_stripped (l : List Char)
    (h : ∀ c ∈ l.reverse.head?, pyIsSpace c = false) : rstripL l = l := by
  unfold rstripL
  rw [dropWhile_of_head_not _ _ h, List.reverse_reverse]

theorem rstripL_reverse_head (l : List Char) :
    ∀ c ∈ (rstripL l).reverse.head?, pyIsSpace c = false := by
  intro c hc
  unfold rstripL at hc
  rw [List.reverse_reverse] at hc
  exact dropWhile_head_not _ _ c hc

/-- Stripping an already fully stripped list is the identity. -/
theorem strip_strip (l : List Char) :
    rstripL (lstripL (rstripL (lstripL l))) = rstripL (lstripL l) := by
  rw [lstripL_rstripL_lstripL]
  exact rstripL_idem_of_stripped _ (rstripL_reverse_head _)

theorem pyStrip_idem (s : String) : pyStrip (pyStrip s) = pyStrip s := by
  unfold pyStrip
  congr 1
  rw [toList_mk]
  exact strip_strip _

theorem pyStrip_toList (s : String) : (pyStrip s).toList = rstripL (lstripL s.toList) := by
  unfold pyStrip; rw [toList_mk]

/-- The strip of a string has no leading or trailing whitespace. -/
theorem pyStrip_no_edge_ws (s : String) :
    (∀ c ∈ (pyStrip s).toList.head?, pyIsSpace c = false) ∧
    (∀ c ∈ (pyStrip s).toList.reverse.head?, pyIsSpace c = false) := by
  rw [pyStrip_toList]
  exact ⟨rstripL_head_eq _ (dropWhile_head_not _ _), rstripL_reverse_head _⟩

theorem takeWhile_no_colon (l : List Char) :
    ':' ∉ l.takeWhile (fun c => c ≠ ':') := by
  intro hmem
  have := List.mem_takeWhile_imp hmem
  simp at this

theorem rstripL_subset (l : List Char) : ∀ c ∈ rstripL l, c ∈ l := by
  intro c hc
  unfold rstripL at hc
  rw [List.mem_reverse] at hc
  have := (List.dropWhile_suffix (l := l.reverse) (p := pyIsSpace)).subset hc
  rwa [List.mem_reverse] at this

theorem lstripL_subset (l : List Char) : ∀ c ∈ lstripL l, c ∈ l := by
  intro c hc
  exact (List.dropWhile_suffix (l := l) (p := pyIsSpace)).subset hc

/-- Embeds `clean_heading_text` never returns a string containing a colon. -/
theorem clean_no_colon (s : String) : ':' ∉ (clean_heading_text s).toList := by
  unfold clean_heading_text
  by_cases h : ':' ∈ (pyStrip s).toList
  · simp only [h, if_pos]
    intro hmem
    rw [pyStrip_toList, toList_mk] at hmem
    have h1 := rstripL_subset _ _ hmem
    have h2 := lstripL_subset _ _ h1
    exact takeWhile_no_colon _ h2
  · simp only [h, if_neg, not_false_eq_true]

theorem pyStrip_clean (s : String) : pyStrip (clean_heading_text s) = clean_heading_text s := by
  unfold clean_heading_text
  by_cases h : ':' ∈ (pyStrip s).toList
  · simp only [h, if_pos]
    exact pyStrip_idem _
  · simp only [h, if_neg, not_false_eq_true]
    exact pyStrip_idem _

/-- On a string that is already stripped and colon-free, cleaning is the identity. -/
theorem clean_of_stripped_no_colon (t : String) (hs : pyStrip t = t)
    (hc : ':' ∉ t.toList) : clean_heading_text t = t := by
  have hc2 : ':' ∉ t.data := hc
  unfold clean_heading_text
  rw [hs]
  simp [hc, hc2]

/-- C10: The heading-text cleaning function is idempotent, its result never
contains a colon, and its result has no leading or trailing whitespace. -/
theorem C10_clean_heading_text_idempotent (s : String) :
    clean_heading_text (clean_heading_text s) = clean_heading_text s ∧
    ':' ∉ (clean_heading_text s).toList ∧
    (∀ c ∈ (clean_heading_text s).toList.head?, pyIsSpace c = false) ∧
    (∀ c ∈ (clean_heading_text s).toList.reverse.head?, pyIsSpace c = false) := by
  refine ⟨?_, clean_no_colon s, ?_, ?_⟩
  · exact clean_of_stripped_no_colon _ (pyStrip_clean s) (clean_no_colon s)
  · have h := pyStrip_no_edge_ws (clean_heading_text s)
    rw [pyStrip_clean] at h
    exact h.1
  · have h := pyStrip_no_edge_ws (clean_heading_text s)
    rw [pyStrip_clean] at h
    exact h.2

/-! ### C7: paragraph-break predicate -/

/-- C7 counterexample: on the pair ("abc", "x\n\nYz") — both non-empty — the
code's predicate fires (the double newline sits in the first 20 characters of
the *next* line), while the claim's two conditions both fail. -/
theorem C7_counterexample :
    is_paragraph_break "abc" "x\n\nYz" = true ∧
      isParaBreakClaimC7 "abc" "x\n\nYz" = false := by
  constructor <;> decide

/-- C7 amended: for non-empty inputs the predicate fires exactly when the last
20 characters of the accumulated text contain a double newline, OR the first 20
characters of the next line contain a double newline, OR the window (last 10
characters of the accumulated text followed by the first 10 of the next line)
matches sentence-ending punctuation followed by whitespace and an uppercase
letter. -/
theorem C7_paragraph_break_amended (text_before text_after : String)
    (hb : text_before ≠ "") (ha : text_after ≠ "") :
    is_paragraph_break text_before text_after =
      (hasDblNewline (pyTakeRight text_before 20) ||
       hasDblNewline (pyTake text_after 20) ||
       searchSentCap (pyTakeRight text_before 10 ++ pyTake text_after 10).toList) := by
  unfold is_paragraph_break
  rw [if_neg (by simp [hb, ha])]
  by_cases h : (hasDblNewline (pyTakeRight text_before 20) ||
      hasDblNewline (pyTake text_after 20)) = true
  · rw [if_pos h, h]
    simp
  · rw [if_neg h]
    rw [Bool.not_eq_true] at h
    rw [h]
    simp

theorem C7_amended_witness :
    ("a." ≠ "" ∧ " Bcd" ≠ "") ∧
      is_paragraph_break "a." " Bcd" =
        (hasDblNewline (pyTakeRight "a." 20) || hasDblNewline (pyTake " Bcd" 20) ||
          searchSentCap (pyTakeRight "a." 10 ++ pyTake " Bcd" 10).toList) :=
  ⟨⟨by decide, by decide⟩, C7_paragraph_break_amended "a." " Bcd" (by decide) (by decide)⟩

/-! ### Tokenizer length accounting

Key bound: the tokens of `simple_sent_tokenize s`, together with a cost of 2
per token (one removed punctuation character and one removed or stripped
whitespace character per sentence boundary), never total more than
`s.length + 2`. -/

theorem length_dropWhile_le (p : Char → Bool) (l : List Char) :
    (l.dropWhile p).length ≤ l.length :=
  (List.dropWhile_suffix p).sublist.length_le

theorem rstripL_length_le (l : List Char) : (rstripL l).length ≤ l.length := by
  unfold rstripL
  rw [List.length_reverse]
  calc (l.reverse.dropWhile pyIsSpace).length ≤ l.reverse.length :=
        length_dropWhile_le _ _
    _ = l.length := List.length_reverse l

theorem pyStrip_length_le_lstrip (l : List Char) :
    (pyStrip (String.mk l)).length ≤ (lstripL l).length := by
  rw [strLen_toList, pyStrip_toList, toList_mk]
  exact rstripL_length_le _

theorem lstripL_append_le (xs ys : List Char) :
    (lstripL (xs ++ ys)).length ≤ (lstripL xs).length + ys.length := by
  unfold lstripL
  rw [List.dropWhile_append]
  by_cases h : (xs.dropWhile pyIsSpace).isEmpty
  · simp only [h, if_pos]
    calc (ys.dropWhile pyIsSpace).length ≤ ys.length := length_dropWhile_le _ _
      _ ≤ (xs.dropWhile pyIsSpace).length + ys.length := Nat.le_add_left _ _
  · simp only [h, if_neg, Bool.false_eq_true, not_false_eq_true]
    rw [List.length_append]

theorem stripPieces_cons (p : String) (ps : List String) :
    stripPieces (p :: ps) =
      if pyStrip p = "" then stripPieces ps else pyStrip p :: stripPieces ps := by
  by_cases h : pyStrip p = ""
  · simp [stripPieces, h]
  · simp [stripPieces, h]

theorem tokCost_cons (p : String) (ps : List String) :
    tokCost (p :: ps) =
      (if pyStrip p = "" then 0 else (pyStrip p).length + 2) + tokCost ps := by
  by_cases h : pyStrip p = ""
  · simp [tokCost, stripPieces_cons, h]
  · simp [tokCost, stripPieces_cons, h, sumLen]
    ring

theorem tokCost_single_le (acc : List Char) :
    tokCost [String.mk acc] ≤ (lstripL acc).length + 2 := by
  rw [show tokCost [String.mk acc] = tokCost (String.mk acc :: []) from rfl, tokCost_cons]
  by_cases h : pyStrip (String.mk acc) = ""
  · simp [h, tokCost, stripPieces, sumLen]
  · simp only [h, if_neg, Bool.false_eq_true, not_false_eq_true]
    have : (pyStrip (String.mk acc)).length ≤ (lstripL acc).length :=
      pyStrip_length_le_lstrip acc
    have h0 : tokCost [] = 0 := by simp [tokCost, stripPieces, sumLen]
    omega

theorem sentEnd_not_space (c : Char) (h : isSentEnd c = true) : pyIsSpace c = false := by
  unfold isSentEnd at h
  rcases Bool.or_eq_true_iff.mp h with h1 | h2
  · rcases Bool.or_eq_true_iff.mp h1 with h3 | h4
    · have : c = '.' := by exact_mod_cast of_decide_eq_true h3
      subst this; decide
    · have : c = '!' := by exact_mod_cast of_decide_eq_true h4
      subst this; decide
  · have : c = '?' := by exact_mod_cast of_decide_eq_true h2
    subst this; decide

theorem sentSplitAux_nil (acc : List Char) :
    sentSplitAux [] acc = [String.mk acc.reverse] := rfl

theorem sentSplitAux_cons (c : Char) (rest acc : List Char) :
    sentSplitAux (c :: rest) acc =
      if isSentEnd c && sepAfterOk rest then
        String.mk acc.reverse :: sentSplitAux rest []
      else sentSplitAux rest (c :: acc) := rfl

/-- Core accounting bound for the sentence splitter. -/
theorem tokCost_sentSplitAux_le :
    ∀ (n : Nat) (l acc : List Char), l.length ≤ n →
      tokCost (sentSplitAux l acc) ≤ (lstripL acc.reverse).length + l.length + 2 := by
  intro n
  induction n with
  | zero =>
    intro l acc hl
    have : l = [] := List.length_eq_zero.mp (Nat.le_zero.mp hl)
    subst this
    rw [sentSplitAux_nil]
    have := tokCost_single_le acc.reverse
    omega
  | succ n ih =>
    intro l acc hl
    cases l with
    | nil =>
      rw [sentSplitAux_nil]
      have := tokCost_single_le acc.reverse
      omega
    | cons c rest =>
      have hrest : rest.length ≤ n := by
        simp at hl; omega
      rw [sentSplitAux_cons]
      by_cases hg : (isSentEnd c && sepAfterOk rest) = true
      · rw [if_pos hg]
        rw [tokCost_cons]
        have hpiece : (if pyStrip (String.mk acc.reverse) = "" then 0
            else (pyStrip (String.mk acc.reverse)).length + 2) ≤
            (lstripL acc.reverse).length + 2 := by
          by_cases h : pyStrip (String.mk acc.reverse) = ""
          · simp [h]
          · simp only [h, if_neg, Bool.false_eq_true, not_false_eq_true]
            have := pyStrip_length_le_lstrip acc.reverse
            omega
        have htail : tokCost (sentSplitAux rest []) ≤ rest.length + 1 := by
          rcases Bool.and_eq_true_iff.mp hg with ⟨hc, hsep⟩
          cases rest with
          | nil =>
            rw [sentSplitAux_nil]
            have h0 : tokCost [String.mk ([] : List Char).reverse] = 0 := by decide
            omega
          | cons d rest3 =>
            have hr3 : rest3.length ≤ n := by
              simp at hrest; omega
            by_cases hd : isSentEnd d = true
            · -- still inside the punctuation run: the cut at d produces an
              -- empty raw piece which the filter drops
              have hsep3 : sepAfterOk rest3 = true := by
                unfold sepAfterOk at hsep ⊢
                rw [List.dropWhile_cons_of_pos hd] at hsep
                exact hsep
              rw [sentSplitAux_cons, if_pos (by rw [hd, hsep3]; rfl)]
              rw [tokCost_cons]
              have hnil : pyStrip (String.mk ([] : List Char).reverse) = "" := by decide
              rw [if_pos hnil]
              have := ih rest3 [] hr3
              simp [lstripL] at this
              simp
              omega
            · -- d ends the run; because the lookahead succeeded it is whitespace,
              -- and it gets stripped from the head of the next piece
              have hdw : pyIsSpace d = true := by
                unfold sepAfterOk at hsep
                rw [List.dropWhile_cons_of_neg (by simp [hd])] at hsep
                exact hsep
              rw [sentSplitAux_cons, if_neg (by simp [hd])]
              have := ih rest3 [d] hr3
              have hlem : (lstripL ([d] : List Char).reverse).length = 0 := by
                simp [lstripL, List.dropWhile_cons, hdw]
              rw [hlem] at this
              simp only [List.length_cons]
              omega
        simp only [List.length_cons]
        omega
      · rw [if_neg hg]
        have := ih rest (c :: acc) hrest
        have hstep : (lstripL (c :: acc).reverse).length ≤ (lstripL acc.reverse).length + 1 := by
          rw [List.reverse_cons]
          have := lstripL_append_le acc.reverse [c]
          simpa using this
        simp only [List.length_cons]
        omega

/-- The token-count bound for `simple_sent_tokenize`: total token characters
plus two per token is at most the input length plus two. -/
theorem simple_sent_tokenize_cost (s : String) :
    sumLen (simple_sent_tokenize s) + 2 * (simple_sent_tokenize s).length ≤
      s.length + 2 := by
  have := tokCost_sentSplitAux_le s.toList.length s.toList [] (Nat.le_refl _)
  simp only [lstripL, List.reverse_nil, List.dropWhile, List.length_nil] at this
  unfold simple_sent_tokenize
  unfold tokCost at this
  rw [strLen_toList]
  omega

theorem joinSep_dot_length (l : List String) (h : l ≠ []) :
    (joinSep ". " l).length + 2 ≤ sumLen l + 2 * l.length := by
  induction l with
  | nil => exact absurd rfl h
  | cons s rest ih =>
    cases rest with
    | nil => simp [joinSep, sumLen]
    | cons t rest2 =>
      have hr : (t :: rest2) ≠ [] := by simp
      have := ih hr
      show ((s ++ ". " ++ joinSep ". " (t :: rest2))).length + 2 ≤ _
      rw [String.length_append, String.length_append]
      simp only [sumLen, List.map_cons, List.sum_cons, List.length_cons] at this ⊢
      have hsep : (". " : String).length = 2 := by decide
      rw [hsep]
      ring_nf
      ring_nf at this
      omega

theorem sumLen_cons (a : String) (l : List String) :
    sumLen (a :: l) = a.length + sumLen l := by
  simp [sumLen]

theorem sumLen_dropLast_getLastD (l : List String) :
    ∀ d : String, l ≠ [] → sumLen l.dropLast + (l.getLastD d).length = sumLen l := by
  induction l with
  | nil => intro d h; exact absurd rfl h
  | cons a rest ih =>
    intro d _
    cases rest with
    | nil => simp [sumLen]
    | cons b t =>
      have hih := ih a (by simp)
      simp only [List.dropLast_cons₂, List.getLastD_cons, sumLen_cons] at hih ⊢
      omega

/-! ### C3: chunk size bounds -/

/-- C3 counterexample: with minSize 6 < maxSize 8 the three paragraphs of
`c3paras` produce chunks of lengths [10, 2, 9].  The first chunk is not the
last chunk yet exceeds maxSize; the second chunk is not the last chunk, is not
the sole content of the document, consists of the single two-character (not
oversized) paragraph "bb", yet is below minSize. -/
theorem C3_counterexample :
    (create_simple_chunks c3paras 6 8).map (fun c => c.text.length) = [10, 2, 9] ∧
    ¬ (∀ c ∈ (create_simple_chunks c3paras 6 8).dropLast,
        c.text.length ≤ 8 ∧
          (6 ≤ c.text.length ∨ (create_simple_chunks c3paras 6 8).length = 1 ∨
            ∃ p ∈ c3paras, c.text = p.text ∧ 8 < p.text.length)) := by
  constructor
  · decide
  · intro h
    have h2 := (h ⟨"aaaaaaaaaa", some 1, some 1⟩ (by decide)).1
    have h10 : ({ text := "aaaaaaaaaa", page := some 1, y_start := some 1 } : Chunk).text.length
        = 10 := by decide
    omega

/-- Invariant preservation for one `create_simple_chunks` loop step: if no
paragraph exceeds `mx` characters, all sealed chunks and the accumulator stay
within `mx + 1` characters. -/
theorem chunkStep_inv (mn mx : Nat) (st : ChunkState) (para : Paragraph)
    (hall : ∀ c ∈ st.chunks, c.text.length ≤ mx + 1)
    (hcur : st.current_chunk.length ≤ mx + 1)
    (hp : para.text.length ≤ mx) :
    (∀ c ∈ (chunkStep mn mx st para).chunks, c.text.length ≤ mx + 1) ∧
      (chunkStep mn mx st para).current_chunk.length ≤ mx + 1 := by
  unfold chunkStep
  by_cases hov : st.current_chunk ≠ "" ∧
      st.current_chunk.length + para.text.length > mx
  · rw [if_pos hov]
    have hcost := simple_sent_tokenize_cost st.current_chunk
    by_cases hmulti : 1 < (segment_sentences st.current_chunk).length
    · rw [if_pos hmulti]
      have hk := hmulti
      unfold segment_sentences at hk ⊢
      have hne : simple_sent_tokenize st.current_chunk ≠ [] := by
        intro h; rw [h] at hk; simp at hk
      have hdecomp := sumLen_dropLast_getLastD (simple_sent_tokenize st.current_chunk) "" hne
      have hdropne : (simple_sent_tokenize st.current_chunk).dropLast ≠ [] := by
        intro h
        have := congrArg List.length h
        rw [List.length_dropLast] at this
        simp at this
        omega
      have hjoin := joinSep_dot_length _ hdropne
      have hlen : (simple_sent_tokenize st.current_chunk).dropLast.length =
          (simple_sent_tokenize st.current_chunk).length - 1 := List.length_dropLast _
      -- chunk_text length bound: ≤ current_chunk length - 1
      have hct : (joinSep ". " (simple_sent_tokenize st.current_chunk).dropLast ++ ".").length
          ≤ st.current_chunk.length := by
        rw [String.length_append]
        have hdot : ("." : String).length = 1 := by decide
        rw [hdot]
        have hsdl : sumLen (simple_sent_tokenize st.current_chunk).dropLast ≤
            sumLen (simple_sent_tokenize st.current_chunk) := by omega
        omega
      -- held-back last sentence bound
      have hlast : ((simple_sent_tokenize st.current_chunk).getLastD "").length ≤
          st.current_chunk.length := by omega
      by_cases hmin : mn ≤ (joinSep ". " (simple_sent_tokenize st.current_chunk).dropLast
          ++ ".").length
      · rw [if_pos hmin]
        refine ⟨?_, ?_⟩
        · intro c hc
          simp only [List.mem_append, List.mem_singleton] at hc
          rcases hc with hc | hc
          · exact hall c hc
          · subst hc; simp only; omega
        · simp only; omega
      · rw [if_neg hmin]
        refine ⟨?_, ?_⟩
        · intro c hc
          simp only [List.mem_append, List.mem_singleton] at hc
          rcases hc with hc | hc
          · exact hall c hc
          · subst hc; simp only; omega
        · simp only; omega
    · rw [if_neg hmulti]
      refine ⟨?_, ?_⟩
      · intro c hc
        simp only [List.mem_append, List.mem_singleton] at hc
        rcases hc with hc | hc
        · exact hall c hc
        · subst hc; simp only; omega
      · simp only; omega
  · rw [if_neg hov]
    by_cases hne : st.current_chunk ≠ ""
    · rw [if_pos hne]
      have hle : st.current_chunk.length + para.text.length ≤ mx := by
        rcases not_and_or.mp hov with h | h
        · exact absurd hne h
        · omega
      refine ⟨hall, ?_⟩
      simp only
      rw [String.length_append, String.length_append]
      have hsp : (" " : String).length = 1 := by decide
      rw [hsp]
      omega
    · rw [if_neg hne]
      exact ⟨hall, by simp only; omega⟩

/-- C3 amended: when no single paragraph exceeds `maxSize` characters, every
chunk produced by `create_simple_chunks` — including the last — has text length
at most `maxSize + 1` (the overflow check does not count the joining space, so
one character of overshoot is possible); the original claim's `maxSize` cap and
`minSize` floor do not hold in general (see the counterexample). -/
theorem C3_chunk_bounds_amended (paragraphs : List Paragraph) (mn mx : Nat)
    (hp : ∀ p ∈ paragraphs, p.text.length ≤ mx) :
    ∀ c ∈ create_simple_chunks paragraphs mn mx, c.text.length ≤ mx + 1 := by
  unfold create_simple_chunks
  have main : ∀ (ps : List Paragraph) (st : ChunkState),
      (∀ p ∈ ps, p.text.length ≤ mx) →
      (∀ c ∈ st.chunks, c.text.length ≤ mx + 1) →
      st.current_chunk.length ≤ mx + 1 →
      (∀ c ∈ (ps.foldl (chunkStep mn mx) st).chunks, c.text.length ≤ mx + 1) ∧
        (ps.foldl (chunkStep mn mx) st).current_chunk.length ≤ mx + 1 := by
    intro ps
    induction ps with
    | nil => intro st _ hall hcur; exact ⟨hall, hcur⟩
    | cons p rest ih =>
      intro st hps hall hcur
      rw [List.foldl_cons]
      have hstep := chunkStep_inv mn mx st p hall hcur (hps p (by simp))
      exact ih _ (fun q hq => hps q (by simp [hq])) hstep.1 hstep.2
  have hres := main paragraphs ⟨[], "", none, none, []⟩ hp (by simp) (by simp)
  intro c hc
  by_cases hne : (paragraphs.foldl (chunkStep mn mx) ⟨[], "", none, none, []⟩).current_chunk ≠ ""
  · rw [if_pos hne] at hc
    simp only [List.mem_append, List.mem_singleton] at hc
    rcases hc with hc | hc
    · exact hres.1 c hc
    · subst hc; simpa using hres.2
  · rw [if_neg hne] at hc
    exact hres.1 c hc

theorem C3_amended_witness :
    (∀ p ∈ c3wparas, p.text.length ≤ 20) ∧
      ∀ c ∈ create_simple_chunks c3wparas 5 20, c.text.length ≤ 21 :=
  ⟨by decide, C3_chunk_bounds_amended c3wparas 5 20 (by decide)⟩

/-! ### C4: chunk page / y_start provenance -/

/-- C4: on `c4paras` (paragraph 1 on page 1, paragraph 2 on page 2, split into
two chunks) the second chunk records page 1 — the page of the *document's*
first paragraph — instead of page 2, the page of the only paragraph that
contributed to it: `current_page` is assigned only in the branch where the
accumulator is empty, which after the first paragraph never runs again. -/
theorem C4_page_not_inherited :
    c4paras.map (fun p => p.page) = [1, 2] ∧
      (create_simple_chunks c4paras 6 8).map (fun c => (c.text, c.page, c.y_start)) =
        [("aaaaaaaaaa", some 1, some 10), ("bb", some 1, some 20)] := by
  constructor <;> decide

/-! ### C8: overflow handling in the chunk builder -/

/-- C8: whenever appending a paragraph would push the accumulator over
`maxSize` (the code's check `len(current_chunk) + len(para) > maxSize`) and the
accumulator is non-empty, the step seals text exactly as the claim describes:
with more than one sentence and an all-but-last-sentence portion of length at
least `minSize`, that portion (rejoined with '. ' and a trailing '.') is sealed
and the accumulator is reseeded with the held-back last sentence plus the
current paragraph's position data; otherwise the whole accumulator is sealed
and the accumulator restarts with the current paragraph. -/
theorem C8_overflow_split (mn mx : Nat) (st : ChunkState) (para : Paragraph)
    (hne : st.current_chunk ≠ "")
    (hov : st.current_chunk.length + para.text.length > mx) :
    chunkStep mn mx st para =
      (let sentences := simple_sent_tokenize st.current_chunk
       let portion := joinSep ". " sentences.dropLast ++ "."
       if 1 < sentences.length ∧ mn ≤ portion.length then
         ⟨st.chunks ++ [⟨portion, st.current_page, chunkYStart st⟩],
           sentences.getLastD "", st.current_page, st.current_y_start, [para.y_start]⟩
       else
         ⟨st.chunks ++ [⟨st.current_chunk, st.current_page, chunkYStart st⟩],
           para.text, st.current_page, st.current_y_start, [para.y_start]⟩) := by
  unfold chunkStep
  rw [if_pos ⟨hne, hov⟩]
  show (if 1 < (segment_sentences st.current_chunk).length then _ else _) = _
  by_cases hmulti : 1 < (segment_sentences st.current_chunk).length
  · rw [if_pos hmulti]
    unfold segment_sentences at hmulti ⊢
    by_cases hmin : mn ≤ (joinSep ". " (simple_sent_tokenize st.current_chunk).dropLast
        ++ ".").length
    · rw [if_pos hmin]
      simp only
      rw [if_pos ⟨hmulti, hmin⟩]
    · rw [if_neg hmin]
      simp only
      rw [if_neg (by intro h; exact hmin h.2)]
  · rw [if_neg hmulti]
    unfold segment_sentences at hmulti
    simp only
    rw [if_neg (by intro h; exact hmulti h.1)]

theorem C8_witness :
    (c8state.current_chunk ≠ "" ∧ c8state.current_chunk.length + c8para.text.length > 10) ∧
      chunkStep 5 10 c8state c8para =
        ⟨[⟨"Hi there.", some 1, some 5⟩], "Go now", some 1, some 5, [7]⟩ := by
  refine ⟨⟨by decide, by decide⟩, ?_⟩
  rw [C8_overflow_split 5 10 c8state c8para (by decide) (by decide)]
  decide

/-! ### C2: the heading associator -/

/-- C2: the semantic associator equals the claim's resolution cascade on every
input, and on a page with entries at y = [10, 50, 90] and a chunk at
y-start 60 with no word overlap it returns the entry at y = 50. -/
theorem C2_heading_associator :
    (∀ (page : Nat) (chunk_y : Int) (chunk_text_raw : String)
        (index : List (Nat × List HeadingEntry)),
      find_heading_for_chunk page chunk_y chunk_text_raw index =
        associateClaimC2 page chunk_y chunk_text_raw index) ∧
    find_heading_for_chunk 2 60 "qqq" c2idx = "Beta Two" := by
  constructor
  · intro page chunk_y chunk_text_raw index
    cases hlk : index.lookup page with
    | none => simp [find_heading_for_chunk, associateClaimC2, hlk]
    | some entries =>
      cases entries with
      | nil => simp [find_heading_for_chunk, associateClaimC2, hlk, pyMaxByY, pyMinByY]
      | cons e1 rest =>
        cases rest with
        | nil => simp [find_heading_for_chunk, associateClaimC2, hlk]
        | cons e2 t =>
          cases hf : (e1 :: e2 :: t).find?
              (fun h => headingMatchesChunk (pyLower chunk_text_raw) h.text) with
          | some h => simp [find_heading_for_chunk, associateClaimC2, hlk, hf]
          | none =>
            by_cases hA : (e1 :: e2 :: t).filter (fun h => h.y_coord ≤ chunk_y) = []
            · by_cases hB : (e1 :: e2 :: t).filter (fun h => chunk_y < h.y_coord) = []
              · exfalso
                rcases le_or_lt e1.y_coord chunk_y with hy | hy
                · have : e1 ∈ (e1 :: e2 :: t).filter (fun h => h.y_coord ≤ chunk_y) :=
                    List.mem_filter.mpr ⟨by simp, by simp [hy]⟩
                  rw [hA] at this
                  simp at this
                · have : e1 ∈ (e1 :: e2 :: t).filter (fun h => chunk_y < h.y_coord) :=
                    List.mem_filter.mpr ⟨by simp, by simp [hy]⟩
                  rw [hB] at this
                  simp at this
              · rcases List.exists_cons_of_ne_nil hB with ⟨b, bs, hBeq⟩
                simp [find_heading_for_chunk, associateClaimC2, hlk, hf, hA, hBeq, pyMinByY,
                  pyMaxByY]
            · rcases List.exists_cons_of_ne_nil hA with ⟨a, as, hAeq⟩
              simp [find_heading_for_chunk, associateClaimC2, hlk, hf, hAeq, pyMaxByY]
  · decide

/-! ### C5: font-size mode -/

/-- C5 counterexample: on six non-bold lines of six distinct sizes, the code's
rare-size filter keeps the body size too, so the body size occupies the Title
slot; the claim's reading (rare filter among the remaining sizes) instead
promotes the second-largest size to Title, producing a different title and
different heading levels. -/
theorem C5_counterexample :
    assign_heading_levels c5lines ≠ assignLevelsClaimC5 c5lines := by
  decide

/-- C5 amended: for every non-empty line sequence with no bold line, the
classifier computes the rare-size set over all sizes including the most
frequent (body) size, sorts those rare sizes descending, assigns the top 4 to
Title/H1/H2/H3, always skips body-size lines, space-joins surviving
Title-level texts into the title, and turns every other surviving line into a
HeadingEntry at its level. -/
theorem C5_font_mode_amended (lines : List StyledLine) (_hne : lines ≠ [])
    (hb : lines.filter (fun l => l.is_bold) = []) :
    assign_heading_levels lines = assignLevelsAmendedC5 lines := by
  unfold assign_heading_levels assignLevelsAmendedC5
  rw [hb]
  simp

theorem C5_amended_witness :
    (c5lines ≠ [] ∧ c5lines.filter (fun l => l.is_bold) = []) ∧
      assign_heading_levels c5lines = assignLevelsAmendedC5 c5lines :=
  ⟨⟨by decide, by decide⟩, C5_font_mode_amended c5lines (by decide) (by decide)⟩

/-! ### C6: entry text cleanliness and candidate filtering -/

/-- C6: in either classification mode, every emitted HeadingEntry carries the
cleaned text of some input line, and that text survives the candidate filter:
longer than 3 characters, not all digits once '.' characters are removed, and
not a reserved form-field label. -/
theorem C6_heading_entry_filter (lines : List StyledLine) (e : HeadingEntry)
    (he : e ∈ (assign_heading_levels lines).2) :
    (∃ l ∈ lines, e.text = clean_heading_text l.text) ∧
      3 < e.text.length ∧
      pyIsDigitStr (dropDots e.text) = false ∧
      pyLower e.text ∉ skip_patterns := by
  have main : (∃ l ∈ lines, e.text = clean_heading_text l.text) ∧
      headingCandidateReject e.text = false := by
    unfold assign_heading_levels at he
    by_cases hbold : lines.filter (fun l => l.is_bold) ≠ []
    · rw [if_pos hbold] at he
      simp only at he
      rcases List.mem_filterMap.mp he with ⟨l, hl, hfl⟩
      have hlmem : l ∈ lines := (List.mem_filter.mp hl).1
      by_cases hr : headingCandidateReject (clean_heading_text l.text) = true
      · simp [boldLineEntry, hr] at hfl
      · rw [Bool.not_eq_true] at hr
        simp only [boldLineEntry, hr, Bool.false_eq_true, if_false, if_neg,
          Option.some.injEq] at hfl
        subst hfl
        exact ⟨⟨l, hlmem, rfl⟩, hr⟩
    · rw [if_neg hbold] at he
      cases hmc : pyMostCommon1 (pyCounter (lines.map (fun l => l.font_size))) with
      | none => rw [hmc] at he; simp at he
      | some bp =>
        rw [hmc] at he
        simp only [fontModeResult] at he
        rcases List.mem_filterMap.mp he with ⟨l, hl, hfl⟩
        cases hfll : fontLineLevel bp.1
            (sizeToLevel (sortDesc ((pyCounter (lines.map (fun l => l.font_size))).filter
              (fun p => 5 * p.2 < lines.length)|>.map (fun p => p.1)))) l with
        | none => rw [hfll] at hfl; simp at hfl
        | some lt =>
          rw [hfll] at hfl
          by_cases hT : lt.1 = "Title"
          · simp [hT] at hfl
          · simp only [hT, Bool.false_eq_true, if_false, if_neg,
              Option.some.injEq] at hfl
            subst hfl
            -- extract the cleaning equation and filter pass from fontLineLevel
            unfold fontLineLevel at hfll
            by_cases hbody : l.font_size = bp.1
            · simp [hbody] at hfll
            · rw [if_neg hbody] at hfll
              cases hlu : List.lookup l.font_size
                  (sizeToLevel (sortDesc ((pyCounter (lines.map (fun l => l.font_size))).filter
                    (fun p => 5 * p.2 < lines.length)|>.map (fun p => p.1)))) with
              | none => rw [hlu] at hfll; simp at hfll
              | some lv =>
                rw [hlu] at hfll
                by_cases hr : headingCandidateReject (clean_heading_text l.text) = true
                · simp [hr] at hfll
                · rw [Bool.not_eq_true] at hr
                  simp only [hr, Bool.false_eq_true, if_false, if_neg,
                    Option.some.injEq] at hfll
                  have htext : lt.2 = clean_heading_text l.text := by
                    rw [← hfll]
                  rw [htext]
                  exact ⟨⟨l, hl, rfl⟩, hr⟩
  refine ⟨main.1, ?_, ?_, ?_⟩
  · have h := main.2
    unfold headingCandidateReject at h
    simp only [Bool.or_eq_false_iff, decide_eq_false_iff_not] at h
    omega
  · have h := main.2
    unfold headingCandidateReject at h
    simp only [Bool.or_eq_false_iff, decide_eq_false_iff_not] at h
    exact h.1.2
  · have h := main.2
    unfold headingCandidateReject at h
    simp only [Bool.or_eq_false_iff, decide_eq_false_iff_not] at h
    exact h.2

theorem C6_witness :
    (⟨"H1", "Chapter 1", 0, 5⟩ : HeadingEntry) ∈ (assign_heading_levels c6wlines).2 ∧
      ((∃ l ∈ c6wlines,
          (⟨"H1", "Chapter 1", 0, 5⟩ : HeadingEntry).text = clean_heading_text l.text) ∧
        3 < (⟨"H1", "Chapter 1", 0, 5⟩ : HeadingEntry).text.length ∧
        pyIsDigitStr (dropDots (⟨"H1", "Chapter 1", 0, 5⟩ : HeadingEntry).text) = false ∧
        pyLower (⟨"H1", "Chapter 1", 0, 5⟩ : HeadingEntry).text ∉ skip_patterns) :=
  ⟨by decide, C6_heading_entry_filter c6wlines ⟨"H1", "Chapter 1", 0, 5⟩ (by decide)⟩

/-! ### C9: empty and fully filtered inputs -/

/-- C9: zero styled lines give a null title and empty outline; zero paragraphs
give no chunks; both pipeline strategies emit no section records on an empty
document; and a document whose every heading candidate is filtered out — in
bold-dominant mode (every bold line rejected) or in font-size mode (every line
of a non-body, level-mapped rare size rejected) — yields a valid headingless
outline rather than an error. -/
theorem C9_empty_inputs :
    assign_heading_levels [] = (none, []) ∧
    (∀ mn mx : Nat, create_simple_chunks [] mn mx = []) ∧
    (∀ (fname : String) (cs : Nat), extract_chunks_with_headings_simple [] fname cs = []) ∧
    (∀ (fname : String) (cs : Nat), extract_chunks_with_headings_sem [] fname cs = []) ∧
    (∀ lines : List StyledLine, lines.filter (fun l => l.is_bold) ≠ [] →
      (∀ l ∈ lines.filter (fun l => l.is_bold),
        headingCandidateReject (clean_heading_text l.text) = true) →
      assign_heading_levels lines = (none, [])) ∧
    (∀ (lines : List StyledLine) (bp : Int × Nat),
      lines.filter (fun l => l.is_bold) = [] →
      pyMostCommon1 (pyCounter (lines.map (fun l => l.font_size))) = some bp →
      (∀ l ∈ lines, l.font_size ≠ bp.1 →
        (sizeToLevel (sortDesc (((pyCounter (lines.map (fun l => l.font_size))).filter
          (fun p => 5 * p.2 < lines.length)).map (fun p => p.1)))).lookup l.font_size ≠ none →
        headingCandidateReject (clean_heading_text l.text) = true) →
      assign_heading_levels lines = (none, [])) := by
  refine ⟨by decide, fun mn mx => rfl, fun fname cs => rfl, fun fname cs => rfl, ?_, ?_⟩
  · intro lines hbne hall
    unfold assign_heading_levels
    rw [if_pos hbne]
    have hnil : (lines.filter (fun l => l.is_bold)).filterMap boldLineEntry = [] := by
      rw [List.filterMap_eq_nil_iff]
      intro l hl
      simp [boldLineEntry, hall l hl]
    rw [hnil]
  · intro lines bp hb hmc hall
    unfold assign_heading_levels
    rw [if_neg (by simp [hb])]
    have hnone : ∀ l ∈ lines,
        fontLineLevel bp.1 (sizeToLevel (sortDesc (((pyCounter
          (lines.map (fun l => l.font_size))).filter
          (fun p => 5 * p.2 < lines.length)).map (fun p => p.1)))) l = none := by
      intro l hl
      unfold fontLineLevel
      by_cases hbody : l.font_size = bp.1
      · rw [if_pos hbody]
      · rw [if_neg hbody]
        cases hlu : (sizeToLevel (sortDesc (((pyCounter
            (lines.map (fun l => l.font_size))).filter
            (fun p => 5 * p.2 < lines.length)).map (fun p => p.1)))).lookup l.font_size with
        | none => rfl
        | some lv =>
          have hr := hall l hl hbody (by rw [hlu]; simp)
          simp [hr]
    have ht : lines.filterMap (fun line =>
        match fontLineLevel bp.1 (sizeToLevel (sortDesc (((pyCounter
          (lines.map (fun l => l.font_size))).filter
          (fun p => 5 * p.2 < lines.length)).map (fun p => p.1)))) line with
        | some ("Title", text) => some text
        | _ => none) = [] := by
      rw [List.filterMap_eq_nil_iff]
      intro l hl
      rw [hnone l hl]
    have ho : lines.filterMap (fun line =>
        match fontLineLevel bp.1 (sizeToLevel (sortDesc (((pyCounter
          (lines.map (fun l => l.font_size))).filter
          (fun p => 5 * p.2 < lines.length)).map (fun p => p.1)))) line with
        | none => none
        | some (level, text) =>
          if level = "Title" then none
          else some (⟨level, text, line.page, line.y_coord⟩ : HeadingEntry)) = [] := by
      rw [List.filterMap_eq_nil_iff]
      intro l hl
      rw [hnone l hl]
    simp only [hmc, fontModeResult]
    rw [ht, ho]
    simp

theorem C9_witness :
    ((c9wlines.filter (fun l => l.is_bold) ≠ [] ∧
        assign_heading_levels c9wlines = (none, [])) ∧
      (c9wlines2.filter (fun l => l.is_bold) = [] ∧
        assign_heading_levels c9wlines2 = (none, []))) :=
  ⟨⟨by decide, C9_empty_inputs.2.2.2.2.1 c9wlines (by decide) (by decide)⟩,
   ⟨by decide,
     C9_empty_inputs.2.2.2.2.2 c9wlines2 (12, 5) (by decide) (by decide) (by decide)⟩⟩

/-! ### C1: the end-to-end scenario -/

/-- C1: on the single-page document with a bold "Annual Report" line at y = 10
and a body line at y = 40, the classifier yields a null title and an H1 entry
"Annual Report" (on 0-based page 0); the simple page-level strategy produces
exactly one section whose heading is "Annual Report"; but the sentence-aware
strategy produces that one chunk with heading "" — its chunks carry 1-based
pages while the heading index is keyed by 0-based pages, so the lookup misses. -/
theorem C1_end_to_end :
    assign_heading_levels (extract_lines_with_fonts c1doc) =
      (none, [⟨"H1", "Annual Report", 0, 10⟩]) ∧
    extract_chunks_with_headings_simple c1doc "doc.pdf" 500 =
      [⟨"Annual Report " ++ c1body, some 1, "doc.pdf", "Annual Report"⟩] ∧
    extract_chunks_with_headings_sem c1doc "doc.pdf" 800 =
      [⟨"Annual Report " ++ c1body, some 1, "doc.pdf", ""⟩] := by
  refine ⟨by decide, by decide, by decide⟩

end DocConnect
